import Mathlib

/-!
# Skinning and per-frame pipeline of `sources/main/game.cpp`

A shallow embedding of `render_character` and `game_render`.

* `glm::mat4` is a 4×4 matrix over a commutative ring `R`; entry `m r c` is row `r` of
  column `c`, i.e. glm's `m[c][r]`.  Float arithmetic is replaced by exact arithmetic in `R`.
* `std::vector` is a `List`; an access outside the vector (undefined behaviour in the
  source) makes the embedded function return `none`.
* Index arithmetic is done on `Nat` and `Int` without wrap-around: a negative `int` used as a
  vector index converts to a `size_t` of at least `2^64 - 2^31`, beyond the size of any vector,
  so it is treated as out of range, and node counts stay far below `2^31`.
* Shader, material, camera and light calls carry no data of the skinning pipeline and are
  left out; what `render_character` hands over is the `"Bones"` uniform and the sequence of
  `draw_arrow` calls.
-/

namespace Game

/-- The type `glm::mat4`: entry `m r c` is row `r` of column `c`. -/
abbrev Mat4 (R : Type) := Matrix (Fin 4) (Fin 4) R

/-- The type `glm::vec3`. -/
abbrev Vec3 (R : Type) := Fin 3 → R

section Model

variable {R : Type} [CommRing R]

/-- The constructor `glm::vec3(x, y, z)`. -/
def vec3 (x y z : R) : Vec3 R := ![x, y, z]

/-- The library function `glm::scale(m, v)`: columns 0, 1, 2 of `m` are multiplied by
`v.x`, `v.y`, `v.z`, column 3 is kept. -/
def scale (m : Mat4 R) (v : Vec3 R) : Mat4 R :=
  fun r c => if h : c.val < 3 then m r c * v ⟨c.val, h⟩ else m r c

/-- The expression `glm::vec3(m[3])`: the first three entries of column 3. -/
def translation (m : Mat4 R) : Vec3 R := fun r => m (Fin.castSucc r) 3

/-- One entry of `mesh->bones`; only `invBindPose` is read by `game.cpp`. -/
structure Bone (R : Type) where
  invBindPose : Mat4 R

/-- The mesh fields read by `render_character`: `bones` and `boneNamesMap`
(declared in `render/mesh.h`).  The map from bone name to `int` slot is an association list
searched by key. -/
structure Mesh (R : Type) where
  bones : List (Bone R)
  boneNamesMap : List (String × Int)

/-- The shared skeleton description behind `skeleton.ref`: `nodeCount`, `names`, `parent`. -/
structure SkeletonRef where
  nodeCount : Nat
  names : List String
  parent : List Int

/-- The fields of `RuntimeSkeleton` read and written by `game.cpp`. -/
structure RuntimeSkeleton (R : Type) where
  ref : SkeletonRef
  localTm : List (Mat4 R)
  globalTm : List (Mat4 R)

/-- The `Character` struct of `game.cpp` (the material only feeds the shader). -/
structure Character (R : Type) where
  transform : Mat4 R
  mesh : Mesh R
  skeleton : RuntimeSkeleton R

/-- The `Scene` struct of `game.cpp`, reduced to its characters. -/
structure Scene (R : Type) where
  characters : List (Character R)

/-- A call `draw_arrow(transform, vec3(0), offset, vec3(0, 0, 0), 0.01f)`; the three constant
arguments are not recorded. -/
structure ArrowCall (R : Type) where
  transform : Mat4 R
  offset : Vec3 R

/-- What `render_character` produces: the `"Bones"` uniform and the `draw_arrow` calls, in
call order. -/
structure RenderOut (R : Type) where
  Bones : List (Mat4 R)
  arrows : List (ArrowCall R)

/-- Read `v[idx]` with an `int` index; `none` when the index is outside the vector. -/
def readAt {α : Type} (v : List α) (idx : Int) : Option α :=
  if 0 ≤ idx then v[idx.toNat]? else none

/-- Assignment `v[idx] = x` with an `int` index; `none` when the index is outside the vector. -/
def writeAt {α : Type} (v : List α) (idx : Int) (x : α) : Option (List α) :=
  if 0 ≤ idx ∧ idx.toNat < v.length then some (v.set idx.toNat x) else none

/-- The lookup `boneNamesMap.find(name)`: `none` is `end()`, `some v` is `it->second`. -/
def find (m : List (String × Int)) (name : String) : Option Int :=
  m.lookup name

/-- Body of the skinning loop (lines 107-112) for skeleton bone `i`. -/
def skinStep (c : Character R) (bones : List (Mat4 R)) (i : Nat) : Option (List (Mat4 R)) :=
  match c.skeleton.ref.names[i]? with
  | none => none
  | some name =>
    match find c.mesh.boneNamesMap name with
    | none => some bones
    | some boneIdx =>
      match c.skeleton.globalTm[i]?, readAt c.mesh.bones boneIdx with
      | some g, some b => writeAt bones boneIdx (g * b.invBindPose)
      | _, _ => none

/-- The skinning loop run over the bone indices `is`, in order. -/
def skinLoop (c : Character R) : List Nat → List (Mat4 R) → Option (List (Mat4 R))
  | [], bones => some bones
  | i :: is, bones =>
    match skinStep c bones i with
    | none => none
    | some bones1 => skinLoop c is bones1

/-- Lines 101-113 of `render_character`: `bones` is created with `mesh->bones.size()` entries,
each the value-initialised `mat4` (`dflt`, fixed by the glm build), then the loop runs for
`i = 0 .. nodeCount - 1`.  The result is what `shader.set_mat4x4("Bones", bones)` receives. -/
def skinningMatrices (dflt : Mat4 R) (c : Character R) : Option (List (Mat4 R)) :=
  skinLoop c (List.range c.skeleton.ref.nodeCount) (List.replicate c.mesh.bones.length dflt)

/-- Inner loop of the arrow drawing (lines 121-128) for a fixed `i`, over the indices `js`. -/
def arrowInner (sk : RuntimeSkeleton R) (i : Nat) :
    List Nat → List (ArrowCall R) → Option (List (ArrowCall R))
  | [], calls => some calls
  | j :: js, calls =>
    match sk.ref.parent[j]? with
    | none => none
    | some p =>
      if p = (i : Int) then
        match sk.localTm[j]?, sk.globalTm[i]? with
        | some l, some g => arrowInner sk i js (calls ++ [⟨g, translation l⟩])
        | _, _ => none
      else arrowInner sk i js calls

/-- Outer loop of the arrow drawing (lines 118-129) over the indices `is`; for each `i` the
inner loop runs for `j = i .. nodeCount - 1`. -/
def arrowOuter (sk : RuntimeSkeleton R) :
    List Nat → List (ArrowCall R) → Option (List (ArrowCall R))
  | [], calls => some calls
  | i :: is, calls =>
    match arrowInner sk i (List.range' i (sk.ref.nodeCount - i)) calls with
    | none => none
    | some calls1 => arrowOuter sk is calls1

/-- Lines 118-129 of `render_character`: the outer loop runs for `i = 2 .. nodeCount - 1`. -/
def debugArrows (sk : RuntimeSkeleton R) : Option (List (ArrowCall R)) :=
  arrowOuter sk (List.range' 2 (sk.ref.nodeCount - 2)) []

/-- The function `render_character`, reduced to the skinning matrices and the arrows. -/
def render_character (dflt : Mat4 R) (c : Character R) : Option (RenderOut R) :=
  match skinningMatrices dflt c with
  | none => none
  | some bones =>
    match debugArrows c.skeleton with
    | none => none
    | some arrows => some ⟨bones, arrows⟩

/-- Lines 149-152 of `game_render`: every global transform is replaced by
`glm::scale(globalTm[i], vec3(k, k, k))` with `k = 1.0f + sin(get_time())`.  `sinTime` is the
value of `sin(get_time())`; `get_time` (declared in `application.h`) is the frame clock, read
as one value for the whole frame. -/
def scaleGlobals (sinTime : R) (sk : RuntimeSkeleton R) : RuntimeSkeleton R :=
  { sk with globalTm :=
      sk.globalTm.map fun g => scale g (vec3 (1 + sinTime) (1 + sinTime) (1 + sinTime)) }

/-- Lines 147-152 of `game_render` for one character: `updateLocalTransforms`, then the
scaling loop.  `upd` is `RuntimeSkeleton::updateLocalTransforms`, defined outside `game.cpp`.
The result is the character `render_character` is called on. -/
def animate (upd : RuntimeSkeleton R → RuntimeSkeleton R) (sinTime : R) (c : Character R) :
    Character R :=
  { c with skeleton := scaleGlobals sinTime (upd c.skeleton) }

/-- The character loop of `game_render` (lines 145-155): the scene after the frame and, per
character, what `render_character` produced. -/
def game_render (upd : RuntimeSkeleton R → RuntimeSkeleton R) (dflt : Mat4 R) (sinTime : R)
    (scene : Scene R) : Scene R × List (Option (RenderOut R)) :=
  let cs := scene.characters.map (animate upd sinTime)
  ({ scene with characters := cs }, cs.map (render_character dflt))

/-- Modelled from the spec: `RuntimeSkeleton::updateLocalTransforms` is not in `game.cpp`;
this is the forward pass of the transform propagator over the bone indices `is`, with `g` the
global transforms already computed.  A negative parent marks a root (`global = local`); a
parent `p < i` gives `global[i] = global[p] * local[i]`; any other parent is a malformed
hierarchy and a missing entry a size mismatch, both reported as `none`. -/
def propagateFrom (parent : List Int) (localTm : List (Mat4 R)) :
    List Nat → List (Mat4 R) → Option (List (Mat4 R))
  | [], g => some g
  | i :: is, g =>
    match parent[i]?, localTm[i]? with
    | some p, some l =>
      if p < 0 then propagateFrom parent localTm is (g ++ [l])
      else if p < (i : Int) then
        match g[p.toNat]? with
        | some gp => propagateFrom parent localTm is (g ++ [gp * l])
        | none => none
      else none
    | _, _ => none

/-- Modelled from the spec: the propagator contract
`propagate(description, localTransforms) -> globalTransforms`, absent from `game.cpp`. -/
def propagate (d : SkeletonRef) (localTm : List (Mat4 R)) : Option (List (Mat4 R)) :=
  propagateFrom d.parent localTm (List.range d.nodeCount) []

/-- Modelled from the spec: `RuntimeSkeleton::updateLocalTransforms`, absent from `game.cpp`,
as the propagation step of the per-frame sequence: the global transforms are refreshed from
the local ones; on failure the previous global transforms are left untouched. -/
def updateLocalTransforms (sk : RuntimeSkeleton R) : RuntimeSkeleton R :=
  match propagate sk.ref sk.localTm with
  | some g => { sk with globalTm := g }
  | none => sk

/-- The mesh slot that the name of skeleton bone `i` maps to, if any. -/
def slotOfBone (c : Character R) (i : Nat) : Option Int :=
  match c.skeleton.ref.names[i]? with
  | none => none
  | some name => find c.mesh.boneNamesMap name

/-- Mesh slot `s` is matched to skeleton bone `i`: the name of bone `i` maps to `s`, and `i`
is the last bone of the loop whose name does. -/
def Matched (c : Character R) (s i : Nat) : Prop :=
  i < c.skeleton.ref.nodeCount ∧ slotOfBone c i = some (s : Int) ∧
    ∀ j, j < c.skeleton.ref.nodeCount → i < j → slotOfBone c j ≠ some (s : Int)

/-- The propagation relation on a skeleton: every bone `i < nodeCount` whose parent entry `p`
is a bone index (`0 ≤ p`) has `globalTm[i] = globalTm[p] * localTm[i]`. -/
def Consistent (sk : RuntimeSkeleton R) : Prop :=
  ∀ i, i < sk.ref.nodeCount → ∀ p ∈ sk.ref.parent[i]?, 0 ≤ p →
    ∀ g ∈ sk.globalTm[i]?, ∀ gp ∈ sk.globalTm[p.toNat]?, ∀ l ∈ sk.localTm[i]?, g = gp * l

/-- The character with skeleton bone `k` removed: entry `k` is taken out of every per-bone
sequence of the skeleton and `nodeCount` drops by one.  The mesh is unchanged. -/
def removeBone (c : Character R) (k : Nat) : Character R :=
  { c with skeleton :=
      { ref :=
          { nodeCount := c.skeleton.ref.nodeCount - 1
            names := c.skeleton.ref.names.eraseIdx k
            parent := c.skeleton.ref.parent.eraseIdx k }
        localTm := c.skeleton.localTm.eraseIdx k
        globalTm := c.skeleton.globalTm.eraseIdx k } }

/-- Index of a remaining bone in the skeleton before bone `k` was removed. -/
def unshift (k j : Nat) : Nat := if j < k then j else j + 1

/-- Every access of the skinning loop is inside its vector: `names` and `globalTm` have at
least `nodeCount` entries and every value stored in `boneNamesMap` is a non-negative index
smaller than `mesh->bones.size()`. -/
def InBounds (c : Character R) : Prop :=
  c.skeleton.ref.nodeCount ≤ c.skeleton.ref.names.length ∧
  c.skeleton.ref.nodeCount ≤ c.skeleton.globalTm.length ∧
  ∀ p ∈ c.mesh.boneNamesMap, 0 ≤ p.2 ∧ p.2 < (c.mesh.bones.length : Int)

/-- Parent indices precede their children: every bone `j < nodeCount` has a parent entry
smaller than `j` (a root carries a negative sentinel). -/
def ParentsPrecede (sk : RuntimeSkeleton R) : Prop :=
  ∀ j, j < sk.ref.nodeCount → ∀ p ∈ sk.ref.parent[j]?, p < (j : Int)

/-- The call `draw_arrow` corresponds to the edge from parent `e.1` to child `e.2`: its
transform is `globalTm[e.1]` and its offset the translation column of `localTm[e.2]`. -/
def ArrowOfEdge (sk : RuntimeSkeleton R) (e : Nat × Nat) (a : ArrowCall R) : Prop :=
  sk.globalTm[e.1]? = some a.transform ∧
    ∃ l, sk.localTm[e.2]? = some l ∧ a.offset = translation l

/-- The children of bone `i` among the indices `js`, as parent→child pairs. -/
def childEdges (sk : RuntimeSkeleton R) (i : Nat) (js : List Nat) : List (Nat × Nat) :=
  (js.filter fun j => decide (sk.ref.parent[j]? = some (i : Int))).map fun j => (i, j)

/-- The parent→child pairs visited by the two arrow loops, in loop order. -/
def loopEdges (sk : RuntimeSkeleton R) (is : List Nat) : List (Nat × Nat) :=
  is.flatMap fun i => childEdges sk i (List.range' i (sk.ref.nodeCount - i))

end Model

/-! ## Concrete characters -/

/-- The matrix `translate(1, 0, 0)`. -/
def shiftX : Mat4 ℤ := !![1, 0, 0, 1; 0, 1, 0, 0; 0, 0, 1, 0; 0, 0, 0, 1]

/-- The matrix `translate(0, 1, 0)`. -/
def shiftY : Mat4 ℤ := !![1, 0, 0, 0; 0, 1, 0, 1; 0, 0, 1, 0; 0, 0, 0, 1]

/-- A two-bone skeleton `a`, `b` (bone `b` a child of bone `a`) whose global transforms are
the identity and `translate(1, 0, 0)`. -/
def pairSkeleton : RuntimeSkeleton ℤ :=
  { ref := { nodeCount := 2, names := ["a", "b"], parent := [-1, 0] }
    localTm := [1, shiftX]
    globalTm := [1, shiftX] }

/-- A one-slot mesh whose map sends both names `a` and `b` to slot 0. -/
def sharedSlotCharacter : Character ℤ :=
  { transform := 1
    mesh := { bones := [⟨1⟩], boneNamesMap := [("a", 0), ("b", 0)] }
    skeleton := pairSkeleton }

/-- A two-slot mesh that knows bone `b` (slot 0) and a bone `c` (slot 1) the skeleton does not
have; skeleton bone `a` is unknown to the mesh. -/
def sparseCharacter : Character ℤ :=
  { transform := 1
    mesh := { bones := [⟨shiftY⟩, ⟨1⟩], boneNamesMap := [("b", 0), ("c", 1)] }
    skeleton := pairSkeleton }

/-- A one-slot mesh whose map sends name `b` to index 1, one past the last slot. -/
def overrunCharacter : Character ℤ :=
  { transform := 1
    mesh := { bones := [⟨1⟩], boneNamesMap := [("b", 1)] }
    skeleton := pairSkeleton }

/-- A chain of four bones `0 → 1 → 2 → 3`, each translated against its parent. -/
def chainSkeleton : RuntimeSkeleton ℤ :=
  { ref := { nodeCount := 4, names := ["root", "hip", "knee", "foot"], parent := [-1, 0, 1, 2] }
    localTm := [1, shiftX, shiftY, shiftX]
    globalTm := [1, shiftX, shiftX * shiftY, shiftX * shiftY * shiftX] }

/-- The matrix `translate(-1, 0, 0)`, the inverse of `shiftX`. -/
def shiftBackX : Mat4 ℤ := !![1, 0, 0, -1; 0, 1, 0, 0; 0, 0, 1, 0; 0, 0, 0, 1]

/-- The two-bone skeleton in its bind pose with a mesh whose slots 0 and 1 carry the inverses
of the bind-pose global transforms of bones `a` and `b`. -/
def bindCharacter : Character ℤ :=
  { transform := 1
    mesh := { bones := [⟨1⟩, ⟨shiftBackX⟩], boneNamesMap := [("a", 0), ("b", 1)] }
    skeleton := pairSkeleton }

/-- A one-slot mesh knowing the single name `a`, under a skeleton whose two bones are both
named `a`; their global transforms are the identity and `translate(1, 0, 0)`. -/
def twinCharacter : Character ℤ :=
  { transform := 1
    mesh := { bones := [⟨1⟩], boneNamesMap := [("a", 0)] }
    skeleton :=
      { ref := { nodeCount := 2, names := ["a", "a"], parent := [-1, 0] }
        localTm := [1, shiftX]
        globalTm := [1, shiftX] } }

/-! ## The skinning loop -/

section SkinningLoop
variable {R : Type} [CommRing R]

theorem readAt_natCast {α : Type} (v : List α) (s : Nat) : readAt v (s : Int) = v[s]? := by
  simp [readAt]

theorem readAt_eq_some {α : Type} {v : List α} {idx : Int} {x : α} (h : readAt v idx = some x) :
    ∃ s : Nat, idx = (s : Int) ∧ v[s]? = some x := by
  unfold readAt at h
  split at h
  · exact ⟨idx.toNat, by omega, h⟩
  · exact absurd h (by simp)

theorem writeAt_eq_some {α : Type} {v : List α} {idx : Int} {x : α} {w : List α}
    (h : writeAt v idx x = some w) :
    ∃ s : Nat, idx = (s : Int) ∧ s < v.length ∧ w = v.set s x := by
  unfold writeAt at h
  split at h
  · rename_i hc
    exact ⟨idx.toNat, by omega, hc.2, by simpa using h.symm⟩
  · exact absurd h (by simp)

theorem writeAt_natCast {α : Type} (v : List α) (s : Nat) (x : α) (hs : s < v.length) :
    writeAt v (s : Int) x = some (v.set s x) := by
  simp [writeAt, hs]

/-- Inversion of one iteration of the skinning loop. -/
theorem skinStep_eq_some {c : Character R} {bones bs : List (Mat4 R)} {i : Nat}
    (h : skinStep c bones i = some bs) :
    ∃ name, c.skeleton.ref.names[i]? = some name ∧
      ((find c.mesh.boneNamesMap name = none ∧ bs = bones) ∨
        ∃ (s : Nat) (g : Mat4 R) (b : Bone R),
          find c.mesh.boneNamesMap name = some (s : Int) ∧ c.skeleton.globalTm[i]? = some g ∧
          c.mesh.bones[s]? = some b ∧ s < bones.length ∧ bs = bones.set s (g * b.invBindPose)) := by
  unfold skinStep at h
  cases hn : c.skeleton.ref.names[i]? with
  | none => simp [hn] at h
  | some name =>
    refine ⟨name, rfl, ?_⟩
    simp only [hn] at h
    cases hf : find c.mesh.boneNamesMap name with
    | none =>
      simp only [hf] at h
      exact Or.inl ⟨rfl, by simpa using h.symm⟩
    | some boneIdx =>
      simp only [hf] at h
      cases hg : c.skeleton.globalTm[i]? with
      | none => simp [hg] at h
      | some g =>
        cases hb : readAt c.mesh.bones boneIdx with
        | none => simp [hg, hb] at h
        | some b =>
          simp only [hg, hb] at h
          obtain ⟨s, hs, hlt, hset⟩ := writeAt_eq_some h
          obtain ⟨s1, hs1, hb1⟩ := readAt_eq_some hb
          have : s1 = s := by omega
          subst this
          exact Or.inr ⟨s1, g, b, by rw [hs], rfl, hb1, hlt, hset⟩

theorem skinStep_slot {c : Character R} {bones bs : List (Mat4 R)} {i : Nat}
    (h : skinStep c bones i = some bs) :
    (slotOfBone c i = none ∧ bs = bones) ∨
      ∃ (s : Nat) (g : Mat4 R) (b : Bone R),
        slotOfBone c i = some (s : Int) ∧ c.skeleton.globalTm[i]? = some g ∧
        c.mesh.bones[s]? = some b ∧ s < bones.length ∧ bs = bones.set s (g * b.invBindPose) := by
  obtain ⟨name, hn, h1 | ⟨s, g, b, hf, h2⟩⟩ := skinStep_eq_some h
  · exact Or.inl ⟨by simp [slotOfBone, hn, h1.1], h1.2⟩
  · exact Or.inr ⟨s, g, b, by simp [slotOfBone, hn, hf], h2⟩

theorem skinStep_length {c : Character R} {bones bs : List (Mat4 R)} {i : Nat}
    (h : skinStep c bones i = some bs) : bs.length = bones.length := by
  obtain ⟨_, h1⟩ | ⟨s, g, b, _, _, _, _, h1⟩ := skinStep_slot h
  · rw [h1]
  · rw [h1, List.length_set]

theorem skinLoop_length {c : Character R} (is : List Nat) {bones bs : List (Mat4 R)}
    (h : skinLoop c is bones = some bs) : bs.length = bones.length := by
  induction is generalizing bones with
  | nil => simp [skinLoop] at h; rw [h]
  | cons i is ih =>
    simp only [skinLoop] at h
    cases hs : skinStep c bones i with
    | none => simp [hs] at h
    | some b1 =>
      simp only [hs] at h
      rw [ih h, skinStep_length hs]

theorem skinLoop_append (c : Character R) (xs ys : List Nat) (bones : List (Mat4 R)) :
    skinLoop c (xs ++ ys) bones =
      match skinLoop c xs bones with
      | none => none
      | some b1 => skinLoop c ys b1 := by
  induction xs generalizing bones with
  | nil => simp [skinLoop]
  | cons i is ih =>
    simp only [List.cons_append, skinLoop]
    cases skinStep c bones i with
    | none => rfl
    | some b1 => exact ih b1

/-- A slot that none of the bones in `is` maps to is left as it was. -/
theorem skinLoop_untouched {c : Character R} (is : List Nat) {bones bs : List (Mat4 R)} {s : Nat}
    (h : skinLoop c is bones = some bs) (hs : ∀ i ∈ is, slotOfBone c i ≠ some (s : Int)) :
    bs[s]? = bones[s]? := by
  induction is generalizing bones with
  | nil => simp [skinLoop] at h; rw [h]
  | cons i is ih =>
    simp only [skinLoop] at h
    cases hst : skinStep c bones i with
    | none => simp [hst] at h
    | some b1 =>
      simp only [hst] at h
      rw [ih h (fun j hj => hs j (List.mem_cons_of_mem _ hj))]
      obtain ⟨_, h1⟩ | ⟨s1, g, b, hsl, _, _, _, h1⟩ := skinStep_slot hst
      · rw [h1]
      · have hne : s1 ≠ s := by
          intro he
          apply hs i (List.mem_cons_self _ _)
          rw [hsl, he]
        rw [h1, List.getElem?_set_ne hne]

end SkinningLoop

section SkinningBounds
variable {R : Type} [CommRing R]

theorem range_split {n i : Nat} (h : i < n) :
    List.range n = List.range' 0 i ++ i :: List.range' (i + 1) (n - i - 1) := by
  have h1 : n = ((n - i - 1) + 1) + i := by omega
  rw [List.range_eq_range']
  conv_lhs => rw [h1]
  rw [← List.range'_append_1 0 i, List.range'_succ]
  simp

/-- The last bone of the loop whose name maps to slot `s` decides the entry of slot `s`. -/
theorem skinLoop_last {c : Character R} (pre post : List Nat) (i : Nat)
    {bones bs : List (Mat4 R)} {s : Nat} {g : Mat4 R} {b : Bone R}
    (h : skinLoop c (pre ++ i :: post) bones = some bs)
    (hi : slotOfBone c i = some (s : Int))
    (hpost : ∀ j ∈ post, slotOfBone c j ≠ some (s : Int))
    (hg : c.skeleton.globalTm[i]? = some g) (hb : c.mesh.bones[s]? = some b) :
    bs[s]? = some (g * b.invBindPose) := by
  rw [skinLoop_append] at h
  cases h1 : skinLoop c pre bones with
  | none => simp [h1] at h
  | some b1 =>
    simp only [h1, skinLoop] at h
    cases h2 : skinStep c b1 i with
    | none => simp [h2] at h
    | some b2 =>
      simp only [h2] at h
      rw [skinLoop_untouched post h hpost]
      obtain ⟨hnone, _⟩ | ⟨s1, g1, bb, hsl, hg1, hb1, hlt, hset⟩ := skinStep_slot h2
      · rw [hi] at hnone; exact absurd hnone (by simp)
      · have hs : s1 = s := by
          rw [hi] at hsl
          have := Option.some.inj hsl
          omega
        subst hs
        rw [hg] at hg1
        rw [hb] at hb1
        cases hg1
        cases hb1
        rw [hset, List.getElem?_set_self hlt]

theorem find_mem {m : List (String × Int)} {name : String} {v : Int}
    (h : find m name = some v) : (name, v) ∈ m := by
  unfold find at h
  induction m with
  | nil => simp [List.lookup] at h
  | cons p m ih =>
    obtain ⟨k, w⟩ := p
    rw [List.lookup_cons] at h
    by_cases hk : (name == k) = true
    · simp only [hk] at h
      have hk1 : name = k := by simpa using hk
      cases h
      rw [hk1]
      exact List.mem_cons_self _ _
    · simp only [hk] at h
      exact List.mem_cons_of_mem _ (ih h)

theorem skinStep_isSome {c : Character R} {bones : List (Mat4 R)} {i : Nat}
    (hn : i < c.skeleton.ref.names.length) (hg : i < c.skeleton.globalTm.length)
    (hmap : ∀ p ∈ c.mesh.boneNamesMap, 0 ≤ p.2 ∧ p.2 < (c.mesh.bones.length : Int))
    (hlen : bones.length = c.mesh.bones.length) :
    ∃ bs, skinStep c bones i = some bs := by
  unfold skinStep
  cases hf : find c.mesh.boneNamesMap c.skeleton.ref.names[i] with
  | none => exact ⟨bones, by simp only [List.getElem?_eq_getElem hn, hf]⟩
  | some v =>
    obtain ⟨h0, h1⟩ := hmap _ (find_mem hf)
    have h0 : 0 ≤ v := h0
    have h1 : v < (c.mesh.bones.length : Int) := h1
    have hlt : v.toNat < c.mesh.bones.length := by omega
    have hr : readAt c.mesh.bones v = some c.mesh.bones[v.toNat] := by
      simp only [readAt, h0, if_true, List.getElem?_eq_getElem hlt]
    have hw : ∀ x, writeAt bones v x = some (bones.set v.toNat x) := by
      intro x
      simp only [writeAt, h0, hlen, hlt, and_self, if_true]
    refine ⟨bones.set v.toNat (c.skeleton.globalTm[i] * c.mesh.bones[v.toNat].invBindPose), ?_⟩
    simp only [List.getElem?_eq_getElem hn, hf, List.getElem?_eq_getElem hg, hr, hw]

theorem skinLoop_isSome {c : Character R} (is : List Nat) {bones : List (Mat4 R)}
    (hn : ∀ i ∈ is, i < c.skeleton.ref.names.length)
    (hg : ∀ i ∈ is, i < c.skeleton.globalTm.length)
    (hmap : ∀ p ∈ c.mesh.boneNamesMap, 0 ≤ p.2 ∧ p.2 < (c.mesh.bones.length : Int))
    (hlen : bones.length = c.mesh.bones.length) :
    ∃ bs, skinLoop c is bones = some bs := by
  induction is generalizing bones with
  | nil => exact ⟨bones, rfl⟩
  | cons i is ih =>
    obtain ⟨b1, h1⟩ := skinStep_isSome (hn i (List.mem_cons_self _ _))
      (hg i (List.mem_cons_self _ _)) hmap hlen
    simp only [skinLoop, h1]
    exact ih (fun j hj => hn j (List.mem_cons_of_mem _ hj))
      (fun j hj => hg j (List.mem_cons_of_mem _ hj)) (by rw [skinStep_length h1, hlen])

theorem skinningMatrices_isSome {c : Character R} (dflt : Mat4 R)
    (hn : c.skeleton.ref.nodeCount ≤ c.skeleton.ref.names.length)
    (hg : c.skeleton.ref.nodeCount ≤ c.skeleton.globalTm.length)
    (hmap : ∀ p ∈ c.mesh.boneNamesMap, 0 ≤ p.2 ∧ p.2 < (c.mesh.bones.length : Int)) :
    ∃ bs, skinningMatrices dflt c = some bs := by
  unfold skinningMatrices
  apply skinLoop_isSome _ _ _ hmap (by simp)
  · intro i hi
    have := List.mem_range.mp hi
    omega
  · intro i hi
    have := List.mem_range.mp hi
    omega

end SkinningBounds

section BoneRemoval
variable {R : Type} [CommRing R]

theorem skinStep_removeBone (c : Character R) (k j : Nat) (bones : List (Mat4 R)) :
    skinStep (removeBone c k) bones j = skinStep c bones (unshift k j) := by
  have hn : (c.skeleton.ref.names.eraseIdx k)[j]? = c.skeleton.ref.names[unshift k j]? := by
    rw [List.getElem?_eraseIdx]; unfold unshift; split <;> rfl
  have hg : (c.skeleton.globalTm.eraseIdx k)[j]? = c.skeleton.globalTm[unshift k j]? := by
    rw [List.getElem?_eraseIdx]; unfold unshift; split <;> rfl
  simp only [skinStep, removeBone, hn, hg]

theorem skinLoop_removeBone (c : Character R) (k : Nat) (is : List Nat) (bones : List (Mat4 R)) :
    skinLoop (removeBone c k) is bones = skinLoop c (is.map (unshift k)) bones := by
  induction is generalizing bones with
  | nil => rfl
  | cons i is ih =>
    simp only [skinLoop, List.map_cons, skinStep_removeBone]
    cases skinStep c bones (unshift k i) with
    | none => rfl
    | some b1 => exact ih b1

theorem map_unshift_low (k : Nat) (m s : Nat) (h : s + m ≤ k) :
    (List.range' s m).map (unshift k) = List.range' s m := by
  induction m generalizing s with
  | zero => rfl
  | succ m ih =>
    rw [List.range'_succ, List.map_cons, ih (s + 1) (by omega)]
    have : unshift k s = s := by unfold unshift; rw [if_pos (by omega)]
    rw [this]

theorem map_unshift_high (k : Nat) (m s : Nat) (h : k ≤ s) :
    (List.range' s m).map (unshift k) = List.range' (s + 1) m := by
  induction m generalizing s with
  | zero => rfl
  | succ m ih =>
    rw [List.range'_succ, List.map_cons, ih (s + 1) (by omega), List.range'_succ]
    have : unshift k s = s + 1 := by unfold unshift; rw [if_neg (by omega)]
    rw [this]

theorem map_unshift_range {n k : Nat} (h : k < n) :
    (List.range (n - 1)).map (unshift k) = List.range' 0 k ++ List.range' (k + 1) (n - k - 1) := by
  have h1 : n - 1 = (n - k - 1) + k := by omega
  rw [List.range_eq_range', h1, ← List.range'_append_1 0 k, List.map_append,
    map_unshift_low k k 0 (by omega), Nat.zero_add, map_unshift_high k _ k (Nat.le_refl k)]

/-- A bone whose iteration leaves `bones` as it is can be dropped from the index list. -/
theorem skinLoop_skip {c : Character R} {k : Nat} (hk : ∀ bones, skinStep c bones k = some bones)
    (xs ys : List Nat) (bones : List (Mat4 R)) :
    skinLoop c (xs ++ k :: ys) bones = skinLoop c (xs ++ ys) bones := by
  rw [skinLoop_append, skinLoop_append]
  cases skinLoop c xs bones with
  | none => rfl
  | some b1 => simp only [skinLoop, hk b1]

theorem skinStep_unmatched {c : Character R} {k : Nat} {name : String}
    (hn : c.skeleton.ref.names[k]? = some name) (hf : find c.mesh.boneNamesMap name = none)
    (bones : List (Mat4 R)) : skinStep c bones k = some bones := by
  simp only [skinStep, hn, hf]

end BoneRemoval

/-! ## The arrow loops -/

section Arrows
variable {R : Type}

theorem arrowInner_spec (sk : RuntimeSkeleton R) (i : Nat) (hi : i < sk.globalTm.length)
    (js : List Nat) (hp : ∀ j ∈ js, j < sk.ref.parent.length)
    (hl : ∀ j ∈ js, j < sk.localTm.length) (calls : List (ArrowCall R)) :
    ∃ new, arrowInner sk i js calls = some (calls ++ new) ∧
      List.Forall₂ (ArrowOfEdge sk) (childEdges sk i js) new := by
  induction js generalizing calls with
  | nil => exact ⟨[], by simp [arrowInner], List.Forall₂.nil⟩
  | cons j js ih =>
    have hpj := hp j (List.mem_cons_self _ _)
    have hlj := hl j (List.mem_cons_self _ _)
    have hp1 : ∀ j1 ∈ js, j1 < sk.ref.parent.length :=
      fun j1 h1 => hp j1 (List.mem_cons_of_mem _ h1)
    have hl1 : ∀ j1 ∈ js, j1 < sk.localTm.length :=
      fun j1 h1 => hl j1 (List.mem_cons_of_mem _ h1)
    by_cases hc : sk.ref.parent[j] = (i : Int)
    · obtain ⟨new, h1, h2⟩ :=
        ih hp1 hl1 (calls ++ [⟨sk.globalTm[i], translation sk.localTm[j]⟩])
      refine ⟨⟨sk.globalTm[i], translation sk.localTm[j]⟩ :: new, ?_, ?_⟩
      · simp only [arrowInner, List.getElem?_eq_getElem hpj, hc, if_true,
          List.getElem?_eq_getElem hlj, List.getElem?_eq_getElem hi, h1]
        simp
      · have he : childEdges sk i (j :: js) = (i, j) :: childEdges sk i js := by
          simp [childEdges, List.getElem?_eq_getElem hpj, hc]
        rw [he]
        exact List.Forall₂.cons
          ⟨List.getElem?_eq_getElem hi, _, List.getElem?_eq_getElem hlj, rfl⟩ h2
    · obtain ⟨new, h1, h2⟩ := ih hp1 hl1 calls
      refine ⟨new, ?_, ?_⟩
      · simp only [arrowInner, List.getElem?_eq_getElem hpj, hc, if_false, h1]
      · have he : childEdges sk i (j :: js) = childEdges sk i js := by
          simp [childEdges, List.getElem?_eq_getElem hpj, hc]
        rw [he]
        exact h2

theorem arrowOuter_spec (sk : RuntimeSkeleton R)
    (hp : sk.ref.nodeCount ≤ sk.ref.parent.length) (hl : sk.ref.nodeCount ≤ sk.localTm.length)
    (is : List Nat) (hg : ∀ i ∈ is, i < sk.globalTm.length) (calls : List (ArrowCall R)) :
    ∃ new, arrowOuter sk is calls = some (calls ++ new) ∧
      List.Forall₂ (ArrowOfEdge sk) (loopEdges sk is) new := by
  induction is generalizing calls with
  | nil => exact ⟨[], by simp [arrowOuter], List.Forall₂.nil⟩
  | cons i is ih =>
    have hrange : ∀ j ∈ List.range' i (sk.ref.nodeCount - i), j < sk.ref.nodeCount := by
      intro j hj
      have := List.mem_range'_1.mp hj
      omega
    obtain ⟨new1, h1, h2⟩ := arrowInner_spec sk i (hg i (List.mem_cons_self _ _))
      (List.range' i (sk.ref.nodeCount - i)) (fun j hj => by have := hrange j hj; omega)
      (fun j hj => by have := hrange j hj; omega) calls
    obtain ⟨new2, h3, h4⟩ := ih (fun j hj => hg j (List.mem_cons_of_mem _ hj)) (calls ++ new1)
    refine ⟨new1 ++ new2, ?_, ?_⟩
    · simp only [arrowOuter, h1, h3, List.append_assoc]
    · have he : loopEdges sk (i :: is) =
          childEdges sk i (List.range' i (sk.ref.nodeCount - i)) ++ loopEdges sk is := by
        simp [loopEdges]
      rw [he]
      exact List.rel_append h2 h4

theorem mem_childEdges (sk : RuntimeSkeleton R) (i : Nat) (js : List Nat) (e : Nat × Nat) :
    e ∈ childEdges sk i js ↔ e.1 = i ∧ e.2 ∈ js ∧ sk.ref.parent[e.2]? = some (i : Int) := by
  obtain ⟨a, b⟩ := e
  simp only [childEdges, List.mem_map, List.mem_filter, decide_eq_true_eq, Prod.mk.injEq]
  constructor
  · rintro ⟨j, ⟨hj, hpar⟩, rfl, rfl⟩
    exact ⟨rfl, hj, hpar⟩
  · rintro ⟨rfl, hj, hpar⟩
    exact ⟨b, ⟨hj, hpar⟩, rfl, rfl⟩

theorem nodup_childEdges (sk : RuntimeSkeleton R) (i : Nat) (js : List Nat) (h : js.Nodup) :
    (childEdges sk i js).Nodup := by
  unfold childEdges
  refine List.Nodup.map ?_ (List.Nodup.filter _ h)
  intro a b hab
  exact (Prod.mk.inj hab).2

theorem nodup_loopEdges (sk : RuntimeSkeleton R) (is : List Nat) (h : is.Nodup) :
    (loopEdges sk is).Nodup := by
  unfold loopEdges
  rw [List.nodup_flatMap]
  refine ⟨fun i _ => nodup_childEdges sk i _ (List.nodup_range' _ _), ?_⟩
  refine List.Pairwise.imp ?_ h
  intro a b hab e h1 h2
  have ha := ((mem_childEdges sk a _ e).mp h1).1
  have hb := ((mem_childEdges sk b _ e).mp h2).1
  exact hab (ha.symm.trans hb)

theorem mem_loopEdges (sk : RuntimeSkeleton R) (hprec : ParentsPrecede sk) (i j : Nat) :
    (i, j) ∈ loopEdges sk (List.range' 2 (sk.ref.nodeCount - 2)) ↔
      2 ≤ i ∧ j < sk.ref.nodeCount ∧ sk.ref.parent[j]? = some (i : Int) := by
  simp only [loopEdges, List.mem_flatMap, mem_childEdges, List.mem_range'_1]
  constructor
  · rintro ⟨a, ha, h1, h2, h3⟩
    obtain rfl : i = a := h1
    exact ⟨ha.1, by omega, h3⟩
  · rintro ⟨h2, hj, hpar⟩
    have hlt : (i : Int) < (j : Int) := hprec j hj _ (by rw [hpar]; exact rfl)
    exact ⟨i, ⟨h2, by omega⟩, rfl, ⟨by omega, by omega⟩, hpar⟩

end Arrows

/-! ## The frame -/

section Frame
variable {R : Type} [CommRing R]

theorem scale_ones (m : Mat4 R) : scale m (vec3 1 1 1) = m := by
  funext r c
  fin_cases c <;> simp [scale, vec3]

theorem scaleGlobals_zero (sk : RuntimeSkeleton R) : scaleGlobals 0 sk = sk := by
  have h : (fun g : Mat4 R => scale g (vec3 (1 + 0) (1 + 0) (1 + 0))) = id := by
    funext g
    rw [add_zero]
    exact scale_ones g
  simp only [scaleGlobals, h, List.map_id]

theorem render_character_Bones {dflt : Mat4 R} {c : Character R} {out : RenderOut R}
    (h : render_character dflt c = some out) : skinningMatrices dflt c = some out.Bones := by
  unfold render_character at h
  cases hs : skinningMatrices dflt c with
  | none => simp [hs] at h
  | some bones =>
    simp only [hs] at h
    cases ha : debugArrows c.skeleton with
    | none => simp [ha] at h
    | some arrows =>
      simp only [ha] at h
      cases h
      rfl

theorem animate_globalTm_getElem? (upd : RuntimeSkeleton R → RuntimeSkeleton R) (sinTime : R)
    (c : Character R) (i : Nat) :
    (animate upd sinTime c).skeleton.globalTm[i]? =
      (upd c.skeleton).globalTm[i]?.map
        fun g => scale g (vec3 (1 + sinTime) (1 + sinTime) (1 + sinTime)) := by
  simp [animate, scaleGlobals]

end Frame

/-! ## Properties of the pipeline -/

section SkinningSlots
variable {R : Type} [CommRing R]

/-- C1, as stated, fails: in `sharedSlotCharacter` bone 0 (`a`) is found at slot 0 and no
higher-indexed bone is named `a`, yet slot 0 ends up holding the product for bone 1 (`b`),
whose name maps to slot 0 as well, and that differs from `globalTm[0] * invBindPose[0]`. -/
theorem skinning_found_slot_counterexample :
    (0 < sharedSlotCharacter.skeleton.ref.nodeCount ∧
      sharedSlotCharacter.skeleton.ref.names[0]? = some "a" ∧
      find sharedSlotCharacter.mesh.boneNamesMap "a" = some 0 ∧
      (∀ j, j < sharedSlotCharacter.skeleton.ref.nodeCount → 0 < j →
        sharedSlotCharacter.skeleton.ref.names[j]? ≠ some "a")) ∧
    sharedSlotCharacter.skeleton.globalTm = [1, shiftX] ∧
    sharedSlotCharacter.mesh.bones = [⟨1⟩] ∧
    skinningMatrices 0 sharedSlotCharacter = some [shiftX * 1] ∧
    shiftX * 1 ≠ (1 : Mat4 ℤ) * 1 := by
  refine ⟨⟨by decide, by decide, by decide, by decide⟩, rfl, rfl, by decide, by decide⟩

/-- C1, amended: if the name of skeleton bone `i < nodeCount` is found at slot `s` and no
higher-indexed skeleton bone has a name mapped to slot `s` (`Matched c s i`), then the
skinning loop, whenever all its accesses are in bounds, ends with
`bones[s] = globalTm[i] * mesh.bones[s].invBindPose`; and it does end when `InBounds c`. -/
theorem skinning_matched_slot (dflt : Mat4 R) (c : Character R) (s i : Nat) (g : Mat4 R)
    (b : Bone R) (hm : Matched c s i) (hg : c.skeleton.globalTm[i]? = some g)
    (hb : c.mesh.bones[s]? = some b) :
    (∀ bs, skinningMatrices dflt c = some bs → bs[s]? = some (g * b.invBindPose)) ∧
    (InBounds c → ∃ bs, skinningMatrices dflt c = some bs) := by
  refine ⟨fun bs h => ?_, fun hin => skinningMatrices_isSome dflt hin.1 hin.2.1 hin.2.2⟩
  obtain ⟨hi, hslot, hlast⟩ := hm
  unfold skinningMatrices at h
  rw [range_split hi] at h
  refine skinLoop_last _ _ i h hslot (fun j hj => ?_) hg hb
  have hj1 := List.mem_range'_1.mp hj
  exact hlast j (by omega) (by omega)

/-- Witness for C1 amended: in `sparseCharacter` slot 0 is matched to bone 1. -/
theorem skinning_matched_slot_witness :
    Matched sparseCharacter 0 1 ∧
    (∀ bs, skinningMatrices 0 sparseCharacter = some bs →
      bs[0]? = some (shiftX * (Bone.mk shiftY).invBindPose)) ∧
    (InBounds sparseCharacter → ∃ bs, skinningMatrices 0 sparseCharacter = some bs) :=
  have hm : Matched sparseCharacter 0 1 := ⟨by decide, by decide, by decide⟩
  ⟨hm, skinning_matched_slot 0 sparseCharacter 0 1 shiftX ⟨shiftY⟩ hm rfl rfl⟩

/-- C4: a skeleton bone `k < nodeCount` whose name is absent from `boneNamesMap` writes no
slot (its iteration returns `bones` unchanged, without failure), the skinning loop gives the
same result as for the character with bone `k` removed from the skeleton, and the loop
completes whenever the accesses of the other bones are in bounds. -/
theorem skinning_unmatched_bone (dflt : Mat4 R) (c : Character R) (k : Nat) (name : String)
    (hk : k < c.skeleton.ref.nodeCount) (hn : c.skeleton.ref.names[k]? = some name)
    (hf : find c.mesh.boneNamesMap name = none) :
    (∀ bones, skinStep c bones k = some bones) ∧
    skinningMatrices dflt c = skinningMatrices dflt (removeBone c k) ∧
    (InBounds c → ∃ bs, skinningMatrices dflt c = some bs) := by
  have hstep := @skinStep_unmatched R _ c k name hn hf
  refine ⟨hstep, ?_, fun hin => skinningMatrices_isSome dflt hin.1 hin.2.1 hin.2.2⟩
  unfold skinningMatrices
  rw [skinLoop_removeBone, range_split hk, skinLoop_skip hstep]
  have h1 : (removeBone c k).skeleton.ref.nodeCount = c.skeleton.ref.nodeCount - 1 := rfl
  have h2 : (removeBone c k).mesh = c.mesh := rfl
  rw [h1, h2, map_unshift_range hk]

/-- Witness for C4: bone 0 (`a`) of `sparseCharacter` is unknown to the mesh. -/
theorem skinning_unmatched_bone_witness :
    (∀ bones, skinStep sparseCharacter bones 0 = some bones) ∧
    skinningMatrices 0 sparseCharacter = skinningMatrices 0 (removeBone sparseCharacter 0) ∧
    (InBounds sparseCharacter → ∃ bs, skinningMatrices 0 sparseCharacter = some bs) :=
  skinning_unmatched_bone 0 sparseCharacter 0 "a" (by decide) (by decide) (by decide)

end SkinningSlots

section SkinningShape
variable {R : Type} [CommRing R]

/-- C5: a mesh slot `s < mesh.bones.size()` that no skeleton bone `i < nodeCount` maps to holds,
after the skinning loop, exactly the value `dflt` the vector was created with, whatever the
global transforms and inverse bind poses are; the loop ends when `InBounds c`. -/
theorem skinning_unvisited_slot (dflt : Mat4 R) (c : Character R) (s : Nat)
    (hs : s < c.mesh.bones.length)
    (hun : ∀ i, i < c.skeleton.ref.nodeCount → slotOfBone c i ≠ some (s : Int)) :
    (∀ bs, skinningMatrices dflt c = some bs → bs[s]? = some dflt) ∧
    (InBounds c → ∃ bs, skinningMatrices dflt c = some bs) := by
  refine ⟨fun bs h => ?_, fun hin => skinningMatrices_isSome dflt hin.1 hin.2.1 hin.2.2⟩
  unfold skinningMatrices at h
  rw [skinLoop_untouched _ h (fun i hi => hun i (List.mem_range.mp hi))]
  exact List.getElem?_replicate_of_lt hs

/-- Witness for C5: slot 1 of `sparseCharacter` belongs to a bone the skeleton lacks. -/
theorem skinning_unvisited_slot_witness :
    (∀ bs, skinningMatrices shiftY sparseCharacter = some bs → bs[1]? = some shiftY) ∧
    (InBounds sparseCharacter → ∃ bs, skinningMatrices shiftY sparseCharacter = some bs) :=
  skinning_unvisited_slot shiftY sparseCharacter 1 (by decide) (by decide)

/-- C6: the sequence handed to `shader.set_mat4x4("Bones", bones)` has exactly
`mesh.bones.size()` entries, whatever the skeleton (also as part of what `render_character`
produces); it is produced whenever `InBounds c`. -/
theorem skinning_length (dflt : Mat4 R) (c : Character R) :
    (∀ bs, skinningMatrices dflt c = some bs → bs.length = c.mesh.bones.length) ∧
    (∀ out, render_character dflt c = some out → out.Bones.length = c.mesh.bones.length) ∧
    (InBounds c → ∃ bs, skinningMatrices dflt c = some bs ∧ bs.length = c.mesh.bones.length) := by
  have hlen : ∀ bs, skinningMatrices dflt c = some bs → bs.length = c.mesh.bones.length := by
    intro bs h
    unfold skinningMatrices at h
    rw [skinLoop_length _ h, List.length_replicate]
  refine ⟨hlen, fun out h => hlen _ (render_character_Bones h), fun hin => ?_⟩
  obtain ⟨bs, h⟩ := skinningMatrices_isSome dflt hin.1 hin.2.1 hin.2.2
  exact ⟨bs, h, hlen bs h⟩

/-- Witness for C6: `sparseCharacter` is in bounds and gets two skinning matrices. -/
theorem skinning_length_witness :
    InBounds sparseCharacter ∧
    ∃ bs, skinningMatrices 0 sparseCharacter = some bs ∧
      bs.length = sparseCharacter.mesh.bones.length :=
  have hin : InBounds sparseCharacter := ⟨by decide, by decide, by decide⟩
  ⟨hin, (skinning_length 0 sparseCharacter).2.2 hin⟩

/-- C8, as stated, fails: with a zero value-initialised `mat4`, slot 1 of `sparseCharacter`,
to which no skeleton bone maps, holds the zero matrix, not the identity. -/
theorem skinning_unmatched_identity_counterexample :
    (∀ i, i < sparseCharacter.skeleton.ref.nodeCount →
      slotOfBone sparseCharacter i ≠ some 1) ∧
    skinningMatrices 0 sparseCharacter = some [shiftX * shiftY, 0] ∧
    (0 : Mat4 ℤ) ≠ 1 := by
  refine ⟨by decide, by decide, by decide⟩

/-- C8, amended: a mesh slot to which no skeleton bone maps holds the value-initialised
`mat4` the vector was created with; that entry is the identity exactly when this default
value is the identity. -/
theorem skinning_unmatched_default (dflt : Mat4 R) (c : Character R) (s : Nat)
    (bs : List (Mat4 R)) (hs : s < c.mesh.bones.length)
    (hun : ∀ i, i < c.skeleton.ref.nodeCount → slotOfBone c i ≠ some (s : Int))
    (h : skinningMatrices dflt c = some bs) :
    bs[s]? = some dflt ∧ (bs[s]? = some 1 ↔ dflt = 1) := by
  have h1 : bs[s]? = some dflt := by
    unfold skinningMatrices at h
    rw [skinLoop_untouched _ h (fun i hi => hun i (List.mem_range.mp hi))]
    exact List.getElem?_replicate_of_lt hs
  refine ⟨h1, ?_⟩
  rw [h1]
  exact ⟨fun h2 => Option.some.inj h2, fun h2 => by rw [h2]⟩

/-- Witness for C8 amended: slot 1 of `sparseCharacter` with an identity default. -/
theorem skinning_unmatched_default_witness :
    skinningMatrices 1 sparseCharacter = some [shiftX * shiftY, 1] ∧
    ([shiftX * shiftY, (1 : Mat4 ℤ)][1]? = some 1 ∧
      ([shiftX * shiftY, (1 : Mat4 ℤ)][1]? = some 1 ↔ (1 : Mat4 ℤ) = 1)) :=
  ⟨by decide,
    skinning_unmatched_default 1 sparseCharacter 1 [shiftX * shiftY, 1] (by decide) (by decide)
      (by decide)⟩

/-- C10: when `names` and `globalTm` have at least `nodeCount` entries and every value stored
in `boneNamesMap` is a non-negative index smaller than `mesh.bones.size()`, every access of
the skinning loop is in bounds (the loop returns a result); without the bound on the map's
values a write can fall outside `bones`: in `overrunCharacter` the two sequences are long
enough, the map sends `b` to index 1 of a one-entry vector, and the assignment
`bones[1] = ...` is out of range. -/
theorem skinning_index_safety :
    (∀ (dflt : Mat4 R) (c : Character R),
      c.skeleton.ref.nodeCount ≤ c.skeleton.ref.names.length →
      c.skeleton.ref.nodeCount ≤ c.skeleton.globalTm.length →
      (∀ p ∈ c.mesh.boneNamesMap, 0 ≤ p.2 ∧ p.2 < (c.mesh.bones.length : Int)) →
      ∃ bs, skinningMatrices dflt c = some bs) ∧
    (overrunCharacter.skeleton.ref.nodeCount ≤ overrunCharacter.skeleton.ref.names.length ∧
      overrunCharacter.skeleton.ref.nodeCount ≤ overrunCharacter.skeleton.globalTm.length ∧
      find overrunCharacter.mesh.boneNamesMap "b" = some 1 ∧
      (∀ x : Mat4 ℤ, writeAt (List.replicate overrunCharacter.mesh.bones.length (0 : Mat4 ℤ)) 1 x
        = none) ∧
      skinningMatrices 0 overrunCharacter = none) := by
  refine ⟨fun dflt c hn hg hmap => skinningMatrices_isSome dflt hn hg hmap, by decide, by decide,
    by decide, fun x => rfl, by decide⟩

/-- Witness for C10: `sparseCharacter` meets the three bounds. -/
theorem skinning_index_safety_witness :
    ∃ bs, skinningMatrices (0 : Mat4 ℤ) sparseCharacter = some bs :=
  (@skinning_index_safety ℤ _).1 0 sparseCharacter (by decide) (by decide) (by decide)

end SkinningShape

section DebugArrows
variable {R : Type}

/-- C7, as stated, fails: the chain `0 → 1 → 2 → 3` has parents before children and three
bones with a parent, yet a single arrow is drawn, the one for the edge `2 → 3`; the edges
`0 → 1` and `1 → 2` get none, because the outer loop starts at `i = 2`. -/
theorem debug_arrows_counterexample :
    ParentsPrecede chainSkeleton ∧
    chainSkeleton.ref.parent = [-1, 0, 1, 2] ∧
    (chainSkeleton.ref.parent.filter fun p => decide (0 ≤ p)).length = 3 ∧
    chainSkeleton.globalTm[2]? = some (shiftX * shiftY) ∧
    chainSkeleton.localTm[3]? = some shiftX ∧
    debugArrows chainSkeleton = some [⟨shiftX * shiftY, translation shiftX⟩] := by
  refine ⟨?_, rfl, rfl, rfl, rfl, rfl⟩
  unfold ParentsPrecede
  decide

/-- C7, amended: for a skeleton whose parent indices precede their children and whose
`parent`, `localTm` and `globalTm` have at least `nodeCount` entries, the arrows drawn are
exactly one per parent→child edge whose parent index is at least 2: the calls correspond, one
to one and in order, to a duplicate-free list of the pairs `(i, j)` with `2 ≤ i`,
`j < nodeCount` and `parent[j] = i`, each call made with `globalTm[i]` and the translation
column of `localTm[j]`. -/
theorem debug_arrows_edges (sk : RuntimeSkeleton R)
    (hp : sk.ref.nodeCount ≤ sk.ref.parent.length) (hl : sk.ref.nodeCount ≤ sk.localTm.length)
    (hg : sk.ref.nodeCount ≤ sk.globalTm.length) (hprec : ParentsPrecede sk) :
    ∃ (edges : List (Nat × Nat)) (calls : List (ArrowCall R)),
      debugArrows sk = some calls ∧ edges.Nodup ∧
      (∀ i j, (i, j) ∈ edges ↔
        2 ≤ i ∧ j < sk.ref.nodeCount ∧ sk.ref.parent[j]? = some (i : Int)) ∧
      List.Forall₂ (ArrowOfEdge sk) edges calls := by
  have hrange : ∀ i ∈ List.range' 2 (sk.ref.nodeCount - 2), i < sk.globalTm.length := by
    intro i hi
    have := List.mem_range'_1.mp hi
    omega
  obtain ⟨calls, h1, h2⟩ := arrowOuter_spec sk hp hl _ hrange []
  exact ⟨loopEdges sk (List.range' 2 (sk.ref.nodeCount - 2)), calls, by simpa [debugArrows] using h1,
    nodup_loopEdges sk _ (List.nodup_range' _ _), mem_loopEdges sk hprec, h2⟩

/-- Witness for C7 amended: the chain skeleton meets the hypotheses. -/
theorem debug_arrows_edges_witness :
    ∃ (edges : List (Nat × Nat)) (calls : List (ArrowCall ℤ)),
      debugArrows chainSkeleton = some calls ∧ edges.Nodup ∧
      (∀ i j, (i, j) ∈ edges ↔
        2 ≤ i ∧ j < chainSkeleton.ref.nodeCount ∧
          chainSkeleton.ref.parent[j]? = some (i : Int)) ∧
      List.Forall₂ (ArrowOfEdge chainSkeleton) edges calls :=
  debug_arrows_edges chainSkeleton (by decide) (by decide) (by decide)
    (by unfold ParentsPrecede; decide)

end DebugArrows

section FrameOrder
variable {R : Type} [CommRing R]

/-- C9, as stated, fails: the upload formula does not hold for every bone `i` whose name is
found at slot `s`.  At a frame with `sin(time) = 1`, in `twinCharacter` (two bones named `a`,
the map sending `a` to slot 0) and in `sharedSlotCharacter` (names `a`, `b`, both sent to
slot 0, no other bone named `a`), bone 0 is found at slot 0 and `updateLocalTransforms` leaves
`G_0 = I`, but the matrix uploaded for slot 0 is the one of bone 1, a scaled translation, not
`scale(G_0, (2, 2, 2)) * invBindPose[0]`. -/
theorem frame_upload_counterexample :
    (0 < (animate updateLocalTransforms 1 twinCharacter).skeleton.ref.nodeCount ∧
      slotOfBone (animate updateLocalTransforms 1 twinCharacter) 0 = some 0 ∧
      (updateLocalTransforms twinCharacter.skeleton).globalTm = [1, shiftX] ∧
      twinCharacter.mesh.bones.map Bone.invBindPose = [1] ∧
      (∃ bs, skinningMatrices 0 (animate updateLocalTransforms 1 twinCharacter) = some bs ∧
        bs = [!![2, 0, 0, 1; 0, 2, 0, 0; 0, 0, 2, 0; 0, 0, 0, 1]])) ∧
    (0 < (animate updateLocalTransforms 1 sharedSlotCharacter).skeleton.ref.nodeCount ∧
      slotOfBone (animate updateLocalTransforms 1 sharedSlotCharacter) 0 = some 0 ∧
      (∀ j, j < sharedSlotCharacter.skeleton.ref.nodeCount → 0 < j →
        sharedSlotCharacter.skeleton.ref.names[j]? ≠ sharedSlotCharacter.skeleton.ref.names[0]?) ∧
      (updateLocalTransforms sharedSlotCharacter.skeleton).globalTm = [1, shiftX] ∧
      sharedSlotCharacter.mesh.bones.map Bone.invBindPose = [1] ∧
      (∃ bs, skinningMatrices 0 (animate updateLocalTransforms 1 sharedSlotCharacter) = some bs ∧
        bs = [!![2, 0, 0, 1; 0, 2, 0, 0; 0, 0, 2, 0; 0, 0, 0, 1]])) ∧
    (!![2, 0, 0, 1; 0, 2, 0, 0; 0, 0, 2, 0; 0, 0, 0, 1] : Mat4 ℤ) ≠
      scale 1 (vec3 (1 + 1) (1 + 1) (1 + 1)) * 1 := by
  refine ⟨⟨by decide, by decide, by decide, by decide, ⟨_, rfl, by decide⟩⟩,
    ⟨by decide, by decide, by decide, by decide, by decide, ⟨_, rfl, by decide⟩⟩, by decide⟩

/-- C9, amended: a frame of `game_render` renders exactly the characters of the scene, each
once and in order, and each after `updateLocalTransforms` followed by the scaling of every
global transform by `(k, k, k)`, `k = 1 + sin(time)`, with `localTm` and the skeleton
description as `updateLocalTransforms` left them and the mesh untouched; so for every bone
`i < nodeCount` whose name is found at slot `s`, no higher-indexed bone having a name mapped
to `s`, the matrix uploaded for slot `s` is `scale(G_i, (k, k, k)) * invBindPose[s]`, `G_i`
being the global transform of bone `i` right after `updateLocalTransforms`. -/
theorem frame_sequencing (upd : RuntimeSkeleton R → RuntimeSkeleton R) (dflt : Mat4 R)
    (sinTime : R) (scene : Scene R) :
    (game_render upd dflt sinTime scene).1.characters =
      scene.characters.map (animate upd sinTime) ∧
    (game_render upd dflt sinTime scene).2 =
      scene.characters.map (fun c => render_character dflt (animate upd sinTime c)) ∧
    ∀ c : Character R,
      (animate upd sinTime c).skeleton.globalTm =
        (upd c.skeleton).globalTm.map
          (fun g => scale g (vec3 (1 + sinTime) (1 + sinTime) (1 + sinTime))) ∧
      (animate upd sinTime c).skeleton.localTm = (upd c.skeleton).localTm ∧
      (animate upd sinTime c).skeleton.ref = (upd c.skeleton).ref ∧
      (animate upd sinTime c).mesh = c.mesh ∧
      ∀ (s i : Nat) (G : Mat4 R) (b : Bone R), Matched (animate upd sinTime c) s i →
        (upd c.skeleton).globalTm[i]? = some G → c.mesh.bones[s]? = some b →
        (∀ bs, skinningMatrices dflt (animate upd sinTime c) = some bs →
          bs[s]? = some (scale G (vec3 (1 + sinTime) (1 + sinTime) (1 + sinTime)) *
            b.invBindPose)) ∧
        (∀ out, render_character dflt (animate upd sinTime c) = some out →
          out.Bones[s]? = some (scale G (vec3 (1 + sinTime) (1 + sinTime) (1 + sinTime)) *
            b.invBindPose)) ∧
        (InBounds (animate upd sinTime c) →
          ∃ bs, skinningMatrices dflt (animate upd sinTime c) = some bs) := by
  refine ⟨rfl, ?_, fun c => ⟨rfl, rfl, rfl, rfl, ?_⟩⟩
  · simp only [game_render, List.map_map]
    rfl
  · intro s i G b hm hG hb
    have hskin : ∀ bs, skinningMatrices dflt (animate upd sinTime c) = some bs →
        bs[s]? = some (scale G (vec3 (1 + sinTime) (1 + sinTime) (1 + sinTime)) *
          b.invBindPose) := by
      intro bs h
      obtain ⟨hi, hslot, hlast⟩ := hm
      have hg : (animate upd sinTime c).skeleton.globalTm[i]? =
          some (scale G (vec3 (1 + sinTime) (1 + sinTime) (1 + sinTime))) := by
        rw [animate_globalTm_getElem?, hG]
        rfl
      unfold skinningMatrices at h
      rw [range_split hi] at h
      refine skinLoop_last _ _ i h hslot (fun j hj => ?_) hg hb
      have hj1 := List.mem_range'_1.mp hj
      exact hlast j (by omega) (by omega)
    exact ⟨hskin, fun out h => hskin _ (render_character_Bones h),
      fun hin => skinningMatrices_isSome dflt hin.1 hin.2.1 hin.2.2⟩

/-- Witness for C9 amended: a scene holding `bindCharacter`, at a frame with `sin(time) = 1`;
slot 1 is matched to bone 1. -/
theorem frame_sequencing_witness :
    Matched (animate updateLocalTransforms 1 bindCharacter) 1 1 ∧
    InBounds (animate updateLocalTransforms 1 bindCharacter) ∧
    ∃ bs, skinningMatrices 0 (animate updateLocalTransforms 1 bindCharacter) = some bs ∧
      bs[1]? = some (scale (1 * shiftX) (vec3 (1 + 1) (1 + 1) (1 + 1)) *
        (Bone.mk shiftBackX).invBindPose) :=
  have hm : Matched (animate updateLocalTransforms 1 bindCharacter) 1 1 :=
    ⟨by decide, by decide, by decide⟩
  have hin : InBounds (animate updateLocalTransforms 1 bindCharacter) :=
    ⟨by decide, by decide, by decide⟩
  have key := (frame_sequencing updateLocalTransforms 0 1 ⟨[bindCharacter]⟩).2.2 bindCharacter
    |>.2.2.2.2 1 1 (1 * shiftX) ⟨shiftBackX⟩ hm rfl rfl
  ⟨hm, hin, (key.2.2 hin).elim fun bs h => ⟨bs, h, key.1 bs h⟩⟩

/-- C3, as stated, fails: for `bindCharacter` the propagation step leaves consistent global
transforms `[I, translate(1,0,0)]`, but at a frame with `sin(time) = 1` every global
transform is scaled by 2 before `render_character` reads it, and then
`globalTm[1] ≠ globalTm[0] * localTm[1]`. -/
theorem frame_consistency_counterexample :
    Consistent (updateLocalTransforms bindCharacter.skeleton) ∧
    (updateLocalTransforms bindCharacter.skeleton).globalTm = [1, shiftX] ∧
    (animate updateLocalTransforms 1 bindCharacter).skeleton.ref.parent = [-1, 0] ∧
    (animate updateLocalTransforms 1 bindCharacter).skeleton.localTm = [1, shiftX] ∧
    (animate updateLocalTransforms 1 bindCharacter).skeleton.globalTm =
      [!![2, 0, 0, 0; 0, 2, 0, 0; 0, 0, 2, 0; 0, 0, 0, 1],
       !![2, 0, 0, 1; 0, 2, 0, 0; 0, 0, 2, 0; 0, 0, 0, 1]] ∧
    (!![2, 0, 0, 1; 0, 2, 0, 0; 0, 0, 2, 0; 0, 0, 0, 1] : Mat4 ℤ) ≠
      !![2, 0, 0, 0; 0, 2, 0, 0; 0, 0, 2, 0; 0, 0, 0, 1] * shiftX ∧
    ¬ Consistent (animate updateLocalTransforms 1 bindCharacter).skeleton := by
  refine ⟨?_, by decide, by decide, by decide, by decide, by decide, ?_⟩
  · unfold Consistent; decide
  · unfold Consistent; decide

/-- C3, amended: if right after `updateLocalTransforms` the global transforms satisfy the
propagation relation, then the global transforms `render_character` reads are those scaled by
`(k, k, k)`, `k = 1 + sin(time)`: for every non-root bone `i` with parent `p`,
`globalTm[i] = scale(G_p * localTm[i], (k, k, k))` with `G_p` the parent's global transform
before scaling; they satisfy the propagation relation itself at frames where
`sin(time) = 0`. -/
theorem frame_consistency_scaled (upd : RuntimeSkeleton R → RuntimeSkeleton R) (sinTime : R)
    (c : Character R) (hcons : Consistent (upd c.skeleton)) :
    (∀ i, i < (upd c.skeleton).ref.nodeCount → ∀ p ∈ (upd c.skeleton).ref.parent[i]?, 0 ≤ p →
      ∀ g ∈ (animate upd sinTime c).skeleton.globalTm[i]?,
      ∀ gp ∈ (upd c.skeleton).globalTm[p.toNat]?,
      ∀ l ∈ (animate upd sinTime c).skeleton.localTm[i]?,
        g = scale (gp * l) (vec3 (1 + sinTime) (1 + sinTime) (1 + sinTime))) ∧
    (sinTime = 0 → Consistent (animate upd sinTime c).skeleton) := by
  constructor
  · intro i hi p hp h0 g hg gp hgp l hl
    rw [animate_globalTm_getElem?] at hg
    obtain ⟨g0, hg0, rfl⟩ := Option.mem_map.mp hg
    rw [hcons i hi p hp h0 g0 hg0 gp hgp l hl]
  · intro h0
    rw [h0]
    have : (animate upd 0 c).skeleton = upd c.skeleton := scaleGlobals_zero _
    rw [this]
    exact hcons

/-- Witness for C3 amended: `bindCharacter` with the propagation step, at `sin(time) = 0`. -/
theorem frame_consistency_scaled_witness :
    Consistent (updateLocalTransforms bindCharacter.skeleton) ∧
    Consistent (animate updateLocalTransforms 0 bindCharacter).skeleton :=
  have h : Consistent (updateLocalTransforms bindCharacter.skeleton) := by
    unfold Consistent; decide
  ⟨h, (frame_consistency_scaled updateLocalTransforms 0 bindCharacter h).2 rfl⟩

end FrameOrder

section BindPose
variable {R : Type} [CommRing R]

/-- C2, as stated, fails: `bindCharacter` is in its bind pose, the propagation step yields the
bind-pose global transforms `[I, translate(1,0,0)]`, and each slot's `invBindPose` is the
inverse of its matched bone's bind-pose global transform; at a frame with `sin(time) = 1`
the matrices handed to the shader are `diag(2, 2, 2, 1)` and a scaled translation, neither of
them the identity. -/
theorem bind_pose_identity_counterexample :
    (updateLocalTransforms bindCharacter.skeleton).localTm = [1, shiftX] ∧
    propagate (updateLocalTransforms bindCharacter.skeleton).ref [1, shiftX] =
      some (updateLocalTransforms bindCharacter.skeleton).globalTm ∧
    (updateLocalTransforms bindCharacter.skeleton).globalTm = [1, shiftX] ∧
    bindCharacter.mesh.bones.map Bone.invBindPose = [1, shiftBackX] ∧
    (1 : Mat4 ℤ) * 1 = 1 ∧ shiftX * shiftBackX = 1 ∧
    Matched (animate updateLocalTransforms 1 bindCharacter) 0 0 ∧
    Matched (animate updateLocalTransforms 1 bindCharacter) 1 1 ∧
    (∃ bs, skinningMatrices 0 (animate updateLocalTransforms 1 bindCharacter) = some bs ∧
      bs = [!![2, 0, 0, 0; 0, 2, 0, 0; 0, 0, 2, 0; 0, 0, 0, 1],
            !![2, 0, 0, -1; 0, 2, 0, 0; 0, 0, 2, 0; 0, 0, 0, 1]]) ∧
    (!![2, 0, 0, 0; 0, 2, 0, 0; 0, 0, 2, 0; 0, 0, 0, 1] : Mat4 ℤ) ≠ 1 ∧
    (!![2, 0, 0, -1; 0, 2, 0, 0; 0, 0, 2, 0; 0, 0, 0, 1] : Mat4 ℤ) ≠ 1 := by
  refine ⟨by decide, rfl, by decide, by decide, by decide, by decide,
    ⟨by decide, by decide, by decide⟩, ⟨by decide, by decide, by decide⟩,
    ⟨_, rfl, by decide⟩, by decide, by decide⟩

/-- C2, amended: if after `updateLocalTransforms` every `localTm` is the bind-pose local
transform, the global transforms are the bind-pose global transforms obtained from them by
propagation, and `invBindPose[s]` is the inverse of the bind-pose global transform `B` of the
bone `i` matched to slot `s`, then the matrix handed to the shader for slot `s` is
`scale(B, (k, k, k)) * invBindPose[s]` with `k = 1 + sin(time)`; it is the identity at the
frame times where `sin(time) = 0`. -/
theorem bind_pose_skinning (upd : RuntimeSkeleton R → RuntimeSkeleton R) (dflt : Mat4 R)
    (sinTime : R) (c : Character R) (bindLocal bindGlobal : List (Mat4 R)) (s i : Nat)
    (B : Mat4 R) (b : Bone R)
    (_hlocal : (upd c.skeleton).localTm = bindLocal)
    (_hprop : propagate (upd c.skeleton).ref bindLocal = some bindGlobal)
    (hglobal : (upd c.skeleton).globalTm = bindGlobal)
    (hm : Matched (animate upd sinTime c) s i)
    (hB : bindGlobal[i]? = some B) (hb : c.mesh.bones[s]? = some b)
    (hinv : B * b.invBindPose = 1) :
    (∀ bs, skinningMatrices dflt (animate upd sinTime c) = some bs →
      bs[s]? = some (scale B (vec3 (1 + sinTime) (1 + sinTime) (1 + sinTime)) *
        b.invBindPose) ∧
      (sinTime = 0 → bs[s]? = some 1)) ∧
    (InBounds (animate upd sinTime c) →
      ∃ bs, skinningMatrices dflt (animate upd sinTime c) = some bs) := by
  refine ⟨fun bs h => ?_, fun hin => skinningMatrices_isSome dflt hin.1 hin.2.1 hin.2.2⟩
  have hmain : bs[s]? = some (scale B (vec3 (1 + sinTime) (1 + sinTime) (1 + sinTime)) *
      b.invBindPose) := by
    obtain ⟨hi, hslot, hlast⟩ := hm
    have hg : (animate upd sinTime c).skeleton.globalTm[i]? =
        some (scale B (vec3 (1 + sinTime) (1 + sinTime) (1 + sinTime))) := by
      rw [animate_globalTm_getElem?, hglobal, hB]
      rfl
    unfold skinningMatrices at h
    rw [range_split hi] at h
    refine skinLoop_last _ _ i h hslot (fun j hj => ?_) hg hb
    have hj1 := List.mem_range'_1.mp hj
    exact hlast j (by omega) (by omega)
  refine ⟨hmain, fun h0 => ?_⟩
  rw [hmain, h0, add_zero, scale_ones, hinv]

/-- Witness for C2 amended: `bindCharacter` at a frame with `sin(time) = 0`, slot 1. -/
theorem bind_pose_skinning_witness :
    Matched (animate updateLocalTransforms 0 bindCharacter) 1 1 ∧
    (1 * shiftX) * shiftBackX = 1 ∧
    ∃ bs, skinningMatrices 0 (animate updateLocalTransforms 0 bindCharacter) = some bs ∧
      bs[1]? = some 1 :=
  have hm : Matched (animate updateLocalTransforms 0 bindCharacter) 1 1 :=
    ⟨by decide, by decide, by decide⟩
  have hinv : (1 * shiftX) * shiftBackX = 1 := by decide
  have hin : InBounds (animate updateLocalTransforms 0 bindCharacter) :=
    ⟨by decide, by decide, by decide⟩
  have key := bind_pose_skinning updateLocalTransforms 0 0 bindCharacter [1, shiftX]
    (updateLocalTransforms bindCharacter.skeleton).globalTm 1 1 (1 * shiftX) ⟨shiftBackX⟩
    (by decide) rfl rfl hm rfl rfl hinv
  ⟨hm, hinv, (key.2 hin).elim fun bs h => ⟨bs, h, ((key.1 bs h).2 rfl)⟩⟩

end BindPose

end Game
